import Mathlib

/-!
Verification of the nest-server chat backend against its specification.

The development shallowly embeds the TypeScript services that the claims
under scrutiny talk about:

* `SanitizationService` (sanitizeText / sanitizeMessageBody / sanitizeRoomName)
* `CacheService` (token denylist keys, sliding-window rate limiter)
* `AuthService` / `SessionService` (refresh-token denylist writers and checks)
* `MessagesService` (send / update / delete / getMessages / getMessageById)
* `RoomsService.removeMember`
* `MessageProcessorService` (inbound and moderated Kafka handlers)
* `ChatGateway.handleDisconnect` with `PresenceService`

Strings are modelled as Lean `String`/`List Char`, machine numbers as
`Nat`/`Int` (timestamps are milliseconds since epoch unless noted), the
external Redis store as explicit state records, and thrown/caught JS
exceptions as `Except` values or as explicitly modelled catch branches.
-/

deriving instance DecidableEq for Except

/-- HTTP error kinds thrown by the services (NestJS exception classes). -/
inductive HttpError where
  | notFound
  | forbidden
  | tooManyRequests
  | badRequest

deriving Repr, DecidableEq

/-! ### Sanitizer (`SanitizationService`)

The service composes: an HTML-entity escaper (`escapeHtml`), the external
DOMPurify library, regex cleanups (tag stripping, URI-scheme removal,
event-handler-attribute removal) and `String.trim`.  Each single-pass
regex `replace(/pat/gi, '')` is modelled by a left-to-right scanner that,
on a match, continues scanning after the match (exactly the JS
semantics).  Scanners use a fuel argument equal to the input length so
that they are structurally recursive and kernel-evaluable; every match
consumes at least one character, so the fuel never runs out on the
inputs `length s` supplied by the wrappers. -/

/-- One character of `SanitizationService.escapeHtml`: the replacement map
for the regex `/[&<>"'/]/g`. -/
def escapeHtmlChar (c : Char) : List Char :=
  if c = '&' then "&amp;".data
  else if c = '<' then "&lt;".data
  else if c = '>' then "&gt;".data
  else if c = Char.ofNat 34 then "&quot;".data
  else if c = Char.ofNat 39 then "&#39;".data
  else if c = '/' then "&#x2F;".data
  else [c]

/-- Embeds `SanitizationService.escapeHtml`: entity-escape `& < > " ' /`. -/
def escapeHtml : List Char → List Char
  | [] => []
  | c :: cs => escapeHtmlChar c ++ escapeHtml cs

/-- Character-entity at the head of the string, with its source length.
Recognises exactly the entities that `escapeHtml` produces. -/
def entityAtHead (s : List Char) : Option (Char × Nat) :=
  match s with
  | [] => none
  | c :: rest =>
    if c = '&' then
      if rest.take 4 = "amp;".data then some ('&', 5)
      else if rest.take 3 = "lt;".data then some ('<', 4)
      else if rest.take 3 = "gt;".data then some ('>', 4)
      else if rest.take 5 = "quot;".data then some (Char.ofNat 34, 6)
      else if rest.take 4 = "#39;".data then some (Char.ofNat 39, 5)
      else if rest.take 5 = "#x2F;".data then some ('/', 6)
      else none
    else none

/-- Decode character entities left to right (HTML parsing of a text run). -/
def decodeEntitiesAux : Nat → List Char → List Char
  | 0, _ => []
  | _, [] => []
  | fuel + 1, c :: cs =>
    match entityAtHead (c :: cs) with
    | some (d, n) => d :: decodeEntitiesAux fuel (cs.drop (n - 1))
    | none => c :: decodeEntitiesAux fuel cs

/-- Decode character entities in a text run. -/
def decodeEntities (s : List Char) : List Char := decodeEntitiesAux s.length s

/-- Serialize one character of a DOM text node back to HTML (`innerHTML`
escapes `&`, `<`, `>` in text content). -/
def encodeTextChar (c : Char) : List Char :=
  if c = '&' then "&amp;".data
  else if c = '<' then "&lt;".data
  else if c = '>' then "&gt;".data
  else [c]

/-- Serialize a DOM text run back to HTML. -/
def encodeText : List Char → List Char
  | [] => []
  | c :: cs => encodeTextChar c ++ encodeText cs

/-- Model of the external DOMPurify `sanitize` on markup-free input: the
library parses its input as HTML and re-serializes the resulting DOM.
For input containing no `<` (hence no tags for it to keep or remove)
this is: decode character entities, then re-escape text.  The claims
below apply it only to markup-free strings, where this model is exact;
the library's tag allow/forbid lists never fire on such input. -/
def domPurifySanitize (s : List Char) : List Char := encodeText (decodeEntities s)

/-- Case-insensitive prefix test: `pat` is given lowercase and is compared
against the lowercased input, as the regex flag `i` does. -/
def isPrefixCI : List Char → List Char → Bool
  | [], _ => true
  | _ :: _, [] => false
  | p :: ps, c :: cs => p = c.toLower && isPrefixCI ps cs

/-- Embeds `String.replace(/pat/gi, '')` for a literal pattern `pat` (given
lowercase): scan left to right, drop each match, continue after it. -/
def replaceAllCIAux (pat : List Char) : Nat → List Char → List Char
  | 0, _ => []
  | _, [] => []
  | fuel + 1, c :: cs =>
    if isPrefixCI pat (c :: cs) && !pat.isEmpty then
      replaceAllCIAux pat fuel (cs.drop (pat.length - 1))
    else c :: replaceAllCIAux pat fuel cs

/-- Single-pass global case-insensitive removal of a literal pattern. -/
def replaceAllCI (pat s : List Char) : List Char := replaceAllCIAux pat s.length s

/-- Embeds `String.replace(/<[^>]*>/g, '')`: at each `<`, a match extends to the
first following `>`; without a `>` there is no match at this position. -/
def stripTagsAux : Nat → List Char → List Char
  | 0, _ => []
  | _, [] => []
  | fuel + 1, c :: cs =>
    if c = '<' then
      match cs.dropWhile (fun d => !(d = '>')) with
      | [] => c :: stripTagsAux fuel cs
      | _ :: rest => stripTagsAux fuel rest
    else c :: stripTagsAux fuel cs

/-- Global removal of `<[^>]*>` matches. -/
def stripTags (s : List Char) : List Char := stripTagsAux s.length s

/-- Regex `\w`. -/
def isWordChar (c : Char) : Bool := c.isAlphanum || c = Char.ofNat 95

/-- Length of a `/on\w+\s*=/i` match at the head of the string, if any.
The greedy runs need no backtracking: after a maximal `\w+` run the next
character is not a word character, and shortening `\w+` would place a
word character where `\s*=` must match. -/
def matchEventAttrLen (s : List Char) : Option Nat :=
  match s with
  | a :: b :: rest =>
    if a.toLower = 'o' && b.toLower = 'n' then
      let w := rest.takeWhile isWordChar
      let afterW := rest.dropWhile isWordChar
      let sp := afterW.takeWhile Char.isWhitespace
      let afterSp := afterW.dropWhile Char.isWhitespace
      if 0 < w.length then
        match afterSp with
        | c :: _ => if c = '=' then some (2 + w.length + sp.length + 1) else none
        | [] => none
      else none
    else none
  | _ => none

/-- Embeds `String.replace(/on\w+\s*=/gi, '')`. -/
def removeEventAttrsAux : Nat → List Char → List Char
  | 0, _ => []
  | _, [] => []
  | fuel + 1, c :: cs =>
    match matchEventAttrLen (c :: cs) with
    | some n => removeEventAttrsAux fuel ((c :: cs).drop n)
    | none => c :: removeEventAttrsAux fuel cs

/-- Global removal of `on\w+\s*=` matches. -/
def removeEventAttrs (s : List Char) : List Char := removeEventAttrsAux s.length s

/-- Embeds `String.trim()`: strip leading and trailing whitespace. -/
def trimChars (s : List Char) : List Char :=
  ((s.dropWhile Char.isWhitespace).reverse.dropWhile Char.isWhitespace).reverse

/-- Embeds `SanitizationService.sanitizeText`: escape entities, run DOMPurify
(no tags allowed), strip remaining tags, strip `javascript:`/`data:`/
`vbscript:` schemes, trim.  The falsy-input guard returns `""`. -/
def sanitizeText (input : String) : String :=
  if input = "" then "" else
  String.mk (trimChars (replaceAllCI "vbscript:".data (replaceAllCI "data:".data
    (replaceAllCI "javascript:".data
      (stripTags (domPurifySanitize (escapeHtml input.data)))))))

/-- Embeds `SanitizationService.sanitizeMessageBody`: run DOMPurify with a small
tag allowlist, strip dangerous schemes and `on*=` event-handler
patterns, trim.  The falsy-input guard returns `""`. -/
def sanitizeMessageBody (body : String) : String :=
  if body = "" then "" else
  String.mk (trimChars (removeEventAttrs (replaceAllCI "vbscript:".data
    (replaceAllCI "data:".data (replaceAllCI "javascript:".data
      (domPurifySanitize body.data))))))

/-- Embeds `SanitizationService.sanitizeRoomName`: `sanitizeText` then
`substring(0, 100)`.  The falsy-input guard returns `""`. -/
def sanitizeRoomName (s : String) : String :=
  if s = "" then "" else
  String.mk ((sanitizeText s).data.take 100)

/-! ### Sliding-window rate limiter (`CacheService.checkRateLimit`)

The Redis sorted set under `rate_limit:<identifier>` stores, for every
admitted request, the member `String(now)` with score `now` (epoch
milliseconds).  Because member and score coincide, the set's content is
a set of natural numbers; two admissions in the same millisecond collide
on the same member, which `Finset.insert` models exactly. -/

/-- Result record of `checkRateLimit` (retryAfter is derived by the
`RateLimitService` wrapper from `resetTime` and is not needed here). -/
structure RateLimitResult where
  allowed : Bool
  remaining : Int
  resetTime : Int

deriving Repr, DecidableEq

/-- State-and-result of one `checkRateLimit` call. -/
structure RateCheck where
  result : RateLimitResult
  state : Finset ℕ

deriving DecidableEq

/-- Embeds `CacheService.checkRateLimit(identifier, limit, windowSeconds)` on the
bucket `st`, at time `now` (ms): evict scores in `[0, now − window]`,
deny if the remaining cardinality reaches `limit`, otherwise record
`now` (`zadd(now, String(now))`) and admit. -/
def checkRateLimit (st : Finset ℕ) (limit windowSeconds now : ℕ) : RateCheck :=
  let windowStart : Int := (now : Int) - (windowSeconds : Int) * 1000
  let kept := st.filter (fun t : ℕ => windowStart < (t : Int))
  let currentCount := kept.card
  if limit ≤ currentCount then
    let oldestTime : ℕ := kept.min.untop' now
    { result := { allowed := false, remaining := 0,
                  resetTime := (oldestTime : Int) + (windowSeconds : Int) * 1000 },
      state := kept }
  else
    { result := { allowed := true,
                  remaining := (limit : Int) - (currentCount : Int) - 1,
                  resetTime := (now : Int) + (windowSeconds : Int) * 1000 },
      state := insert now kept }

/-- Run a sequence of `checkRateLimit` calls (call times in order) against
one identifier's bucket, returning the times of the admitted calls. -/
def rlAdmitted (limit windowSeconds : ℕ) : Finset ℕ → List ℕ → List ℕ
  | _, [] => []
  | st, c :: cs =>
    let r := checkRateLimit st limit windowSeconds c
    if r.result.allowed then c :: rlAdmitted limit windowSeconds r.state cs
    else rlAdmitted limit windowSeconds r.state cs

/-! ### Keyed store and refresh-token denylist

`RedisService.set(key, value, ttl)` writes a key that expires `ttl`
seconds later; `exists` finds a key whose expiry has not passed.  The
denylist markers store constant values (`'1'` / `{blacklisted:true}`),
so only key and expiry time are modelled. -/

/-- Keyed store: association list of key ↦ absolute expiry (epoch ms). -/
structure KVStore where
  entries : List (String × ℕ)

deriving Repr, DecidableEq

/-- Embeds `SET key value EX ttlSeconds` at time `now` (ms): overwrite the key,
new expiry `now + ttl·1000`. -/
def KVStore.setEx (kv : KVStore) (key : String) (ttlSeconds now : ℕ) : KVStore :=
  { entries := (key, now + ttlSeconds * 1000) :: kv.entries.filter (fun e => !(e.1 = key)) }

/-- Embeds `EXISTS key` at time `now` (ms): a live (unexpired) entry is present. -/
def KVStore.existsKey (kv : KVStore) (key : String) (now : ℕ) : Bool :=
  kv.entries.any (fun e => e.1 = key && now < e.2)

/-- Decoded JWT payload; only the `exp` claim (epoch seconds) matters
here.  `jwtService.decode` returning `null` is `none` at the call site. -/
structure JwtPayload where
  exp : Option ℕ

deriving Repr, DecidableEq

/-- Embeds `AuthService.blacklistRefreshToken`: decode (unverified); compute
`ttl = ⌊(exp·1000 − now)/1000⌋`; when `ttl > 0` write `blacklist:<token>`
with that TTL.  A `null` decode makes `decoded.exp` throw; the catch
block swallows the error, so nothing is written.  A missing `exp` claim
makes `ttl` NaN, and `NaN > 0` is false, so nothing is written. -/
def authBlacklistRefreshToken (kv : KVStore) (refreshToken : String)
    (decoded : Option JwtPayload) (now : ℕ) : KVStore :=
  match decoded with
  | none => kv
  | some payload =>
    match payload.exp with
    | none => kv
    | some exp =>
      let ttl : Int := ((exp : Int) * 1000 - (now : Int)).fdiv 1000
      if 0 < ttl then kv.setEx ("blacklist:" ++ refreshToken) ttl.toNat now else kv

/-- The denylist check used by `AuthService.refresh` and by
`RefreshTokenGuard`: `EXISTS blacklist:<token>`. -/
def authIsRefreshTokenBlacklisted (kv : KVStore) (refreshToken : String) (now : ℕ) : Bool :=
  kv.existsKey ("blacklist:" ++ refreshToken) now

/-- Embeds `CacheService.blacklistToken`: write `blacklist:token:<token>` with
the given TTL. -/
def blacklistToken (kv : KVStore) (token : String) (ttlSeconds now : ℕ) : KVStore :=
  kv.setEx ("blacklist:token:" ++ token) ttlSeconds now

/-- Embeds `CacheService.isTokenBlacklisted`: `EXISTS blacklist:token:<token>`. -/
def isTokenBlacklisted (kv : KVStore) (token : String) (now : ℕ) : Bool :=
  kv.existsKey ("blacklist:token:" ++ token) now

/-- Embeds `SessionService.blacklistRefreshToken`: decode (unverified); bail out
(warn only) when decode fails or `exp` is missing; `ttl = exp − ⌊now/1000⌋`
seconds; when `ttl > 0` delegate to `CacheService.blacklistToken`. -/
def sessionBlacklistRefreshToken (kv : KVStore) (token : String)
    (decoded : Option JwtPayload) (now : ℕ) : KVStore :=
  match decoded with
  | none => kv
  | some payload =>
    match payload.exp with
    | none => kv
    | some exp =>
      let ttl : Int := (exp : Int) - ((now / 1000 : ℕ) : Int)
      if 0 < ttl then blacklistToken kv token ttl.toNat now else kv

/-- Embeds `SessionService.isRefreshTokenBlacklisted`, the check performed by the
websocket gateway on connection: delegates to
`CacheService.isTokenBlacklisted`. -/
def gatewayIsTokenBlacklisted (kv : KVStore) (token : String) (now : ℕ) : Bool :=
  isTokenBlacklisted kv token now

/-! ### Presence registry and gateway disconnect (`ChatGateway`,
`PresenceService`) -/

/-- One `user:presence` hash entry (JSON blob fields that matter). -/
structure PresenceBlob where
  status : String
  socketId : Option String
  lastSeen : ℕ

deriving Repr, DecidableEq

/-- The three Redis hashes of `PresenceService`: `user:presence`
(userId ↦ blob), `room:users` (field `roomId:userId`), `user:rooms`
(field `userId:roomId`).  Hash fields are modelled as their split
components. -/
structure PresenceState where
  userPresence : List (String × PresenceBlob)
  roomUsers : List (String × String)
  userRooms : List (String × String)

deriving Repr, DecidableEq

/-- Embeds `PresenceService.getUserRooms`: keys of `user:rooms` that start with
`userId:`, mapped to their room component. -/
def getUserRooms (ps : PresenceState) (userId : String) : List String :=
  (ps.userRooms.filter (fun p => p.1 = userId)).map (fun p => p.2)

/-- Embeds `PresenceService.removeUserFromRoom`: drop the field from both the
room-indexed and the user-indexed hash. -/
def removeUserFromRoom (ps : PresenceState) (userId roomId : String) : PresenceState :=
  { ps with
    roomUsers := ps.roomUsers.filter (fun p => !(p.1 = roomId && p.2 = userId)),
    userRooms := ps.userRooms.filter (fun p => !(p.1 = userId && p.2 = roomId)) }

/-- Embeds `PresenceService.setUserOffline`: overwrite the user's presence blob
with status `offline` (no socket id). -/
def setUserOffline (ps : PresenceState) (userId : String) (now : ℕ) : PresenceState :=
  { ps with
    userPresence := (userId, { status := "offline", socketId := none, lastSeen := now })
      :: ps.userPresence.filter (fun p => !(p.1 = userId)) }

/-- Embeds `PresenceService.cleanupUserData`: remove the user from every room in
`getUserRooms`, then mark offline. -/
def cleanupUserData (ps : PresenceState) (userId : String) (now : ℕ) : PresenceState :=
  let userRooms := getUserRooms ps userId
  setUserOffline (userRooms.foldl (fun acc roomId => removeUserFromRoom acc userId roomId) ps)
    userId now

/-- What `ChatGateway.handleDisconnect` leaves behind: the presence state,
the surviving heartbeat-interval keys, and the `(roomId, status)` pairs
of the `presence` events it emitted. -/
structure DisconnectOutcome where
  presence : PresenceState
  heartbeats : List String
  emitted : List (String × String)

deriving Repr, DecidableEq

/-- Embeds `ChatGateway.handleDisconnect`: stop the user's heartbeat interval,
cache an offline blob (part of the presence overwrite), run
`cleanupUserData`, then emit `presence{offline}` to each room of
`getUserRooms(userId)` — queried, as in the source, only after the
cleanup has already removed the user's `user:rooms` entries. -/
def handleDisconnect (ps : PresenceState) (heartbeats : List String)
    (userId : String) (now : ℕ) : DisconnectOutcome :=
  let heartbeats2 := heartbeats.filter (fun u => !(u = userId))
  let ps2 := cleanupUserData ps userId now
  let userRooms := getUserRooms ps2 userId
  { presence := ps2, heartbeats := heartbeats2,
    emitted := userRooms.map (fun roomId => (roomId, "offline")) }

/-! ### Message documents and the Kafka pipeline
(`MessageProcessorService`, message schemas) -/

/-- The `meta` subdocument of a stored message. -/
structure MessageMeta where
  sentiment : String
  flagged : Bool
  reasons : List String

deriving Repr, DecidableEq

/-- The schema default: `{sentiment:'neutral', flagged:false, reasons:[]}`. -/
def neutralMeta : MessageMeta :=
  { sentiment := "neutral", flagged := false, reasons := [] }

/-- A stored message document (`Message` Mongoose schema, timestamps in
epoch ms). -/
structure MessageDoc where
  _id : String
  roomId : String
  senderId : String
  body : String
  meta : MessageMeta
  editedAt : Option ℕ
  deletedAt : Option ℕ
  createdAt : ℕ
  updatedAt : ℕ

deriving Repr, DecidableEq

/-- Embeds `MessageMetadata` — payload of `messages.inbound`. -/
structure InboundMessage where
  id : String
  roomId : String
  senderId : String
  body : String
  timestamp : ℕ
  type : String

deriving Repr, DecidableEq

/-- The `moderation` block of a moderated payload; the two confidence
numbers are exact rationals here (the defaults are 1/2). -/
structure ModerationVerdict where
  sentiment : String
  flagged : Bool
  reasons : List String
  confidenceSentiment : ℚ
  confidenceFlagged : ℚ

deriving Repr, DecidableEq

/-- The fallback verdict used whenever analysis fails. -/
def defaultVerdict : ModerationVerdict :=
  { sentiment := "neutral", flagged := false, reasons := [],
    confidenceSentiment := (1 : ℚ) / 2, confidenceFlagged := (1 : ℚ) / 2 }

/-- Embeds `ModeratedMessage` — payload of `messages.moderated`. -/
structure ModeratedMessage where
  id : String
  roomId : String
  senderId : String
  body : String
  timestamp : ℕ
  type : String
  moderation : ModerationVerdict
  processedAt : ℕ

deriving Repr, DecidableEq

/-- Embeds `PersistedMessage` — payload of `messages.persisted`. -/
structure PersistedMessage where
  id : String
  roomId : String
  senderId : String
  body : String
  timestamp : ℕ
  type : String
  moderation : ModerationVerdict
  processedAt : ℕ
  _id : String
  createdAt : ℕ
  updatedAt : ℕ

deriving Repr, DecidableEq

/-- Response of the analyzer `POST /moderate` endpoint. -/
structure ModerationApiResult where
  flagged : Bool
  reasons : Option (List String)
  confidence : Option ℚ

deriving Repr, DecidableEq

/-- Response of the analyzer `POST /sentiment` endpoint. -/
structure SentimentApiResult where
  sentiment : String
  confidence : Option ℚ

deriving Repr, DecidableEq

/-- JS `x || 0.5` on an optional number: missing (`undefined`) and the
falsy number `0` both fall back to `0.5`. -/
def orHalf (c : Option ℚ) : ℚ :=
  match c with
  | some v => if v = 0 then (1 : ℚ) / 2 else v
  | none => (1 : ℚ) / 2

/-- Embeds `MessageProcessorService.handleInboundMessage`.  The two analyzer
calls are passed as `Except` values (an HTTP failure is `.error`).  The
whole body sits in one `try/catch`: if either call fails, the catch
block builds the default-verdict moderated payload instead, and the
payload is produced to `messages.moderated` in both branches. -/
def handleInboundMessage (message : InboundMessage)
    (moderationApi : Except Unit ModerationApiResult)
    (sentimentApi : Except Unit SentimentApiResult) (now : ℕ) : ModeratedMessage :=
  match moderationApi, sentimentApi with
  | .ok moderationResult, .ok sentimentResult =>
    { id := message.id, roomId := message.roomId, senderId := message.senderId,
      body := message.body, timestamp := message.timestamp, type := message.type,
      moderation :=
        { sentiment := sentimentResult.sentiment,
          flagged := moderationResult.flagged,
          reasons := moderationResult.reasons.getD [],
          confidenceSentiment := orHalf sentimentResult.confidence,
          confidenceFlagged := orHalf moderationResult.confidence },
      processedAt := now }
  | _, _ =>
    { id := message.id, roomId := message.roomId, senderId := message.senderId,
      body := message.body, timestamp := message.timestamp, type := message.type,
      moderation := defaultVerdict, processedAt := now }

/-- The mock object built by `updateMessageWithModeration`. -/
structure MockUpdated where
  _id : String
  createdAt : ℕ
  updatedAt : ℕ

deriving Repr, DecidableEq

/-- Embeds `MessageProcessorService.updateMessageWithModeration`, exactly as in
the source: the document store is neither queried nor written ("For now,
we'll return a mock response"); the returned object echoes the message
id and timestamp.  The store is threaded through unchanged. -/
def updateMessageWithModeration (message : ModeratedMessage)
    (store : List MessageDoc) (now : ℕ) : List MessageDoc × Option MockUpdated :=
  (store, some { _id := message.id, createdAt := message.timestamp, updatedAt := now })

/-- Everything `handleModeratedMessage` leaves behind: the (possibly
updated) document store, the payloads produced to `messages.persisted`,
and the rooms that received a `message_updated` emission. -/
structure ModeratedOutcome where
  store : List MessageDoc
  persisted : List PersistedMessage
  emittedRooms : List String

deriving Repr, DecidableEq

/-- Embeds `MessageProcessorService.handleModeratedMessage`: run
`updateMessageWithModeration`; when it returns a (mock) document, build
the persisted payload, produce it, and signal the gateway. -/
def handleModeratedMessage (message : ModeratedMessage)
    (store : List MessageDoc) (now : ℕ) : ModeratedOutcome :=
  let r := updateMessageWithModeration message store now
  match r.2 with
  | some updatedMessage =>
    { store := r.1,
      persisted := [{ id := message.id, roomId := message.roomId,
                      senderId := message.senderId, body := message.body,
                      timestamp := message.timestamp, type := message.type,
                      moderation := message.moderation,
                      processedAt := message.processedAt,
                      _id := updatedMessage._id,
                      createdAt := updatedMessage.createdAt,
                      updatedAt := updatedMessage.updatedAt }],
      emittedRooms := [message.roomId] }
  | none => { store := r.1, persisted := [], emittedRooms := [] }

/-! ### Membership and `RoomsService.removeMember` -/

/-- Membership roles. -/
inductive RoomRole where
  | owner
  | moderator
  | member

deriving Repr, DecidableEq

/-- A `Membership` document (named `MembershipDoc` because `Membership`
is taken by the ambient library). -/
structure MembershipDoc where
  roomId : String
  userId : String
  role : RoomRole

deriving Repr, DecidableEq

/-- Embeds `RoomsService.removeMember(roomId, userId, currentUser)`: room must
exist; caller and target must both hold memberships; then the source's
permission ladder: self-removal is allowed unconditionally, an owner
target is otherwise never removable, a plain-member caller may remove
no-one else, and a moderator may not remove another moderator.  On
success the target's membership document is deleted. -/
def removeMember (rooms : List String) (memberships : List MembershipDoc)
    (roomId userId currentUserId : String) : Except HttpError (List MembershipDoc) :=
  if !(rooms.contains roomId) then .error .notFound else
  match memberships.find? (fun m => m.roomId = roomId && m.userId = currentUserId) with
  | none => .error .forbidden
  | some currentMembership =>
    match memberships.find? (fun m => m.roomId = roomId && m.userId = userId) with
    | none => .error .notFound
    | some targetMembership =>
      if currentUserId = userId then
        .ok (memberships.erase targetMembership)
      else if targetMembership.role = .owner then .error .forbidden
      else if currentMembership.role = .member then .error .forbidden
      else if currentMembership.role = .moderator && targetMembership.role = .moderator then
        .error .forbidden
      else .ok (memberships.erase targetMembership)

/-! ### `MessagesService` over an explicit state

The state gathers the collections the service touches: the message
collection, the room collection (ids), the membership collection, the
per-room hot-message cache, the per-identifier rate-limit buckets and
the log of `messages.inbound` payloads produced.  The generated Mongo
object id and `Date.now()` are passed in as arguments. -/

/-- Embeds `MessageResponseDto` — the projection `toMessageResponse` returns. -/
structure MessageResponse where
  _id : String
  roomId : String
  senderId : String
  body : String
  meta : MessageMeta
  editedAt : Option ℕ
  deletedAt : Option ℕ
  createdAt : ℕ
  updatedAt : ℕ

deriving Repr, DecidableEq

/-- Embeds `MessagesService.toMessageResponse`. -/
def toMessageResponse (m : MessageDoc) : MessageResponse :=
  { _id := m._id, roomId := m.roomId, senderId := m.senderId, body := m.body,
    meta := m.meta, editedAt := m.editedAt, deletedAt := m.deletedAt,
    createdAt := m.createdAt, updatedAt := m.updatedAt }

/-- Combined backing state of `MessagesService`. -/
structure ChatState where
  messages : List MessageDoc
  rooms : List String
  memberships : List MembershipDoc
  cache : List (String × List MessageResponse)
  rateState : List (String × Finset ℕ)
  inboundProduced : List InboundMessage

deriving DecidableEq

/-- Bucket lookup for a `rate_limit:<identifier>` key (missing ⇒ empty). -/
def lookupRate (rs : List (String × Finset ℕ)) (key : String) : Finset ℕ :=
  ((rs.find? (fun p => p.1 = key)).map (fun p => p.2)).getD ∅

/-- Embeds `CacheService.checkRateLimit` against the keyed store: read the
bucket, run the sliding-window step, write the bucket back. -/
def checkRateLimitKeyed (rs : List (String × Finset ℕ)) (identifier : String)
    (limit windowSeconds now : ℕ) : RateLimitResult × List (String × Finset ℕ) :=
  let key := "rate_limit:" ++ identifier
  let rc := checkRateLimit (lookupRate rs key) limit windowSeconds now
  (rc.result, (key, rc.state) :: rs.filter (fun p => !(p.1 = key)))

/-- Embeds `MessagesService.isRoomMember`: a membership document for the pair
exists. -/
def isRoomMember (memberships : List MembershipDoc) (roomId userId : String) : Bool :=
  memberships.any (fun m => m.roomId = roomId && m.userId = userId)

/-- Embeds `CacheService.getRecentMessages` (`recent:room:<roomId>`). -/
def getRecentMessages (cache : List (String × List MessageResponse))
    (roomId : String) : Option (List MessageResponse) :=
  (cache.find? (fun p => p.1 = roomId)).map (fun p => p.2)

/-- Embeds `CacheService.cacheRecentMessages`: overwrite the room's entry. -/
def cacheRecentMessages (cache : List (String × List MessageResponse))
    (roomId : String) (messages : List MessageResponse) :
    List (String × List MessageResponse) :=
  (roomId, messages) :: cache.filter (fun p => !(p.1 = roomId))

/-- Embeds `MessagesService.cacheRecentMessages` (the private helper used by
`sendMessage`): prepend the new projection and keep at most 50. -/
def cachePrependRecent (cache : List (String × List MessageResponse))
    (roomId : String) (message : MessageResponse) :
    List (String × List MessageResponse) :=
  let cached := (getRecentMessages cache roomId).getD []
  let cached2 := message :: cached
  let cached3 := if 50 < cached2.length then cached2.take 50 else cached2
  cacheRecentMessages cache roomId cached3

/-- Continuation of `sendMessage` after both rate-limit admissions
(source lines 93–157): room existence, membership, sanitization,
document insert with neutral meta, hot-cache prepend, inbound produce
carrying the original (unsanitized) body. -/
def sendMessageAdmitted (st : ChatState) (rs : List (String × Finset ℕ))
    (roomId body userId : String) (now : ℕ) (newId : String) :
    Except HttpError (MessageResponse × ChatState) :=
  if !(st.rooms.contains roomId) then .error .notFound else
  if !(isRoomMember st.memberships roomId userId) then .error .forbidden else
  let sanitizedBody := sanitizeMessageBody body
  let doc : MessageDoc :=
    { _id := newId, roomId := roomId, senderId := userId, body := sanitizedBody,
      meta := neutralMeta, editedAt := none, deletedAt := none,
      createdAt := now, updatedAt := now }
  let messageResponse := toMessageResponse doc
  let inbound : InboundMessage :=
    { id := newId, roomId := roomId, senderId := userId, body := body,
      timestamp := now, type := "message.sent" }
  .ok (messageResponse,
    { st with
      messages := st.messages ++ [doc],
      cache := cachePrependRecent st.cache roomId messageResponse,
      rateState := rs,
      inboundProduced := st.inboundProduced ++ [inbound] })

/-- Embeds `MessagesService.sendMessage`: user rate limit, optional IP rate
limit, then the admitted path. -/
def sendMessage (st : ChatState) (roomId body userId : String)
    (clientIP : Option String) (now : ℕ) (newId : String) :
    Except HttpError (MessageResponse × ChatState) :=
  let userCheck := checkRateLimitKeyed st.rateState ("message:user:" ++ userId) 60 60 now
  if userCheck.1.allowed = false then .error .tooManyRequests else
  match clientIP with
  | some ip =>
    let ipCheck := checkRateLimitKeyed userCheck.2 ("message:ip:" ++ ip) 100 60 now
    if ipCheck.1.allowed = false then .error .tooManyRequests
    else sendMessageAdmitted st ipCheck.2 roomId body userId now newId
  | none => sendMessageAdmitted st userCheck.2 roomId body userId now newId

/-- Insert into a list sorted by `createdAt` descending. -/
def insertByCreatedDesc (m : MessageDoc) : List MessageDoc → List MessageDoc
  | [] => [m]
  | x :: xs =>
    if x.createdAt ≤ m.createdAt then m :: x :: xs else x :: insertByCreatedDesc m xs

/-- Embeds `sort({createdAt: -1})`. -/
def sortByCreatedDesc (l : List MessageDoc) : List MessageDoc :=
  l.foldr insertByCreatedDesc []

/-- Page of message history (`getMessages` return shape). -/
structure MessagesPage where
  messages : List MessageResponse
  total : ℕ
  page : ℕ
  limit : ℕ
  totalPages : ℕ
  hasNext : Bool
  hasPrev : Bool

deriving Repr, DecidableEq

/-- Embeds `countDocuments({roomId, deletedAt: null})`. -/
def countNonDeleted (messages : List MessageDoc) (roomId : String) : ℕ :=
  (messages.filter (fun m => m.roomId = roomId && m.deletedAt = none)).length

/-- Database branch of `getMessages`: filter to the room's non-deleted
documents (strictly older than the cursor document when given), sort by
`createdAt` descending, skip/limit, and refresh the room's cache entry
when serving the plain first page. -/
def getMessagesFromDb (st : ChatState) (roomId : String) (page limit : ℕ)
    (cursorCreatedAt : Option ℕ) (total totalPages : ℕ) (hasNext hasPrev : Bool)
    (refreshCache : Bool) : MessagesPage × ChatState :=
  let docs := st.messages.filter (fun m =>
    m.roomId = roomId && m.deletedAt = none &&
      (match cursorCreatedAt with
       | some ct => m.createdAt < ct
       | none => true))
  let sorted := sortByCreatedDesc docs
  let pageDocs := (sorted.drop ((page - 1) * limit)).take limit
  let messageResponses := pageDocs.map toMessageResponse
  let cache2 := if refreshCache then cacheRecentMessages st.cache roomId messageResponses
    else st.cache
  ({ messages := messageResponses, total := total, page := page, limit := limit,
     totalPages := totalPages, hasNext := hasNext, hasPrev := hasPrev },
   { st with cache := cache2 })

/-- Embeds `MessagesService.getMessages`: room and membership guards; serve the
plain first page from a non-empty cache entry when present (without
touching the store beyond the total count); otherwise resolve the
cursor (400 on an unknown cursor id) and query the database. -/
def getMessages (st : ChatState) (roomId : String) (page limit : ℕ)
    (cursor : Option String) (userId : String) :
    Except HttpError (MessagesPage × ChatState) :=
  if !(st.rooms.contains roomId) then .error .notFound else
  if !(isRoomMember st.memberships roomId userId) then .error .forbidden else
  let total := countNonDeleted st.messages roomId
  let totalPages := (total + limit - 1) / limit
  let hasNext := decide (page < totalPages)
  let hasPrev := decide (1 < page)
  let firstPage := page = 1 && cursor.isNone
  match (if firstPage then getRecentMessages st.cache roomId else none) with
  | some cachedMessages =>
    if 0 < cachedMessages.length then
      .ok ({ messages := cachedMessages.take limit, total := total, page := page,
             limit := limit, totalPages := totalPages, hasNext := hasNext,
             hasPrev := hasPrev }, st)
    else
      match cursor with
      | some cursorId =>
        match st.messages.find? (fun m => m._id = cursorId) with
        | none => .error .badRequest
        | some cursorMessage =>
          .ok (getMessagesFromDb st roomId page limit (some cursorMessage.createdAt)
            total totalPages hasNext hasPrev firstPage)
      | none =>
        .ok (getMessagesFromDb st roomId page limit none total totalPages hasNext
          hasPrev firstPage)
  | none =>
    match cursor with
    | some cursorId =>
      match st.messages.find? (fun m => m._id = cursorId) with
      | none => .error .badRequest
      | some cursorMessage =>
        .ok (getMessagesFromDb st roomId page limit (some cursorMessage.createdAt)
          total totalPages hasNext hasPrev firstPage)
    | none =>
      .ok (getMessagesFromDb st roomId page limit none total totalPages hasNext
        hasPrev firstPage)

/-- Embeds `MessagesService.updateMessage`: load (404 when missing or
soft-deleted), sender-only (403), then persist the **raw** dto body with
fresh `editedAt`/`updatedAt`.  The cache is not touched. -/
def updateMessage (st : ChatState) (messageId body userId : String) (now : ℕ) :
    Except HttpError (MessageResponse × ChatState) :=
  match st.messages.find? (fun m => m._id = messageId) with
  | none => .error .notFound
  | some message =>
    if message.deletedAt.isSome then .error .notFound else
    if !(message.senderId = userId) then .error .forbidden else
    let updated := { message with body := body, editedAt := some now, updatedAt := now }
    let messages2 := st.messages.map (fun d => if d._id = messageId then
      { d with body := body, editedAt := some now, updatedAt := now } else d)
    .ok (toMessageResponse updated, { st with messages := messages2 })

/-- Embeds `MessagesService.deleteMessage`: load (404 when missing or already
deleted), sender-only (403), then set `deletedAt`.  The cache is not
touched. -/
def deleteMessage (st : ChatState) (messageId userId : String) (now : ℕ) :
    Except HttpError ChatState :=
  match st.messages.find? (fun m => m._id = messageId) with
  | none => .error .notFound
  | some message =>
    if message.deletedAt.isSome then .error .notFound else
    if !(message.senderId = userId) then .error .forbidden else
    .ok { st with messages := st.messages.map (fun d => if d._id = messageId then
      { d with deletedAt := some now, updatedAt := now } else d) }

/-- Embeds `MessagesService.getMessageById`: load; 404 when missing or
soft-deleted; 403 when the reader is not a member of the owning room. -/
def getMessageById (st : ChatState) (messageId userId : String) :
    Except HttpError MessageResponse :=
  match st.messages.find? (fun m => m._id = messageId) with
  | none => .error .notFound
  | some message =>
    if message.deletedAt.isSome then .error .notFound else
    if !(isRoomMember st.memberships message.roomId userId) then .error .forbidden else
    .ok (toMessageResponse message)

def c7Doc : MessageDoc :=
  { _id := "m1", roomId := "r", senderId := "u", body := "hi",
    meta := neutralMeta, editedAt := none, deletedAt := none,
    createdAt := 10, updatedAt := 10 }

def c7State : ChatState :=
  { messages := [c7Doc], rooms := ["r"],
    memberships := [{ roomId := "r", userId := "u", role := .member }],
    cache := [("r", [toMessageResponse c7Doc])],
    rateState := [], inboundProduced := [] }

def c3Doc : MessageDoc :=
  { _id := "m0", roomId := "r", senderId := "u", body := "hello",
    meta := neutralMeta, editedAt := none, deletedAt := none,
    createdAt := 10, updatedAt := 10 }

def c3State : ChatState :=
  { messages := [c3Doc], rooms := ["r"],
    memberships := [{ roomId := "r", userId := "u", role := .member }],
    cache := [], rateState := [], inboundProduced := [] }

def c3UpdatedDoc : MessageDoc :=
  { c3Doc with body := "bye", editedAt := some 30, updatedAt := 30 }

def c7DeletedDoc : MessageDoc := { c7Doc with deletedAt := some 20, updatedAt := 20 }

/-- Characters that none of the sanitizer passes react to: not an
HTML-escapable character, not `<`/`>`, not `:` (needed by every removed
URI scheme) and not `=` (needed by every `on*=` match) — whitespace and
ordinary text are allowed. -/
def goodChar (c : Char) : Bool :=
  !(c.toLower = ':' || c = '&' || c = '<' || c = '>' || c = Char.ofNat 34 ||
    c = Char.ofNat 39 || c = '/' || c = '=')

/-- Auxiliary: the two denylist key families never collide — the
`blacklist:token:<t>` key is longer than `blacklist:<t>` by 6. -/
theorem blacklistKeys_ne (token : String) :
    ¬ ("blacklist:token:" ++ token = "blacklist:" ++ token) := by
  intro h
  have hl := congrArg String.length h
  simp only [String.length_append] at hl
  have e1 : "blacklist:token:".length = 16 := rfl
  have e2 : "blacklist:".length = 10 := rfl
  omega

/-- Auxiliary: `existsKey` ignores entries removed for a different key. -/
theorem any_filter_ne_key (l : List (String × ℕ)) (key key2 : String) (t : ℕ)
    (h : ¬ key2 = key) :
    (l.filter (fun e => !(e.1 = key))).any (fun e => e.1 = key2 && t < e.2)
      = l.any (fun e => e.1 = key2 && t < e.2) := by
  induction l with
  | nil => rfl
  | cons e l ih =>
    by_cases he : e.1 = key
    · rw [List.filter_cons_of_neg (by simp [he]), ih, List.any_cons]
      have h2 : decide (e.1 = key2) = false :=
        decide_eq_false (fun hk => h (hk.symm.trans he))
      rw [h2, Bool.false_and, Bool.false_or]
    · rw [List.filter_cons_of_pos (by simp [he]), List.any_cons, List.any_cons, ih]

/-- Auxiliary: a write under one key leaves the check of a different key
unchanged. -/
theorem existsKey_setEx_ne (kv : KVStore) (key key2 : String) (ttl now t : ℕ)
    (h : ¬ key2 = key) :
    (kv.setEx key ttl now).existsKey key2 t = kv.existsKey key2 t := by
  show ((key, now + ttl * 1000) :: kv.entries.filter (fun e => !(e.1 = key))).any
      (fun e => e.1 = key2 && t < e.2) = _
  rw [List.any_cons]
  have h2 : decide ((key, now + ttl * 1000).1 = key2) = false :=
    decide_eq_false (fun hk => h hk.symm)
  rw [h2, Bool.false_and, Bool.false_or]
  exact any_filter_ne_key kv.entries key key2 t h

/-- Auxiliary: after a write, the written key tests as present exactly
until its expiry. -/
theorem existsKey_setEx_self (kv : KVStore) (key : String) (ttl now t : ℕ)
    (h : t < now + ttl * 1000) :
    (kv.setEx key ttl now).existsKey key t = true := by
  simp [KVStore.setEx, KVStore.existsKey]
  exact Or.inl h

/-- C2, counterexample: The claim asserts that once a refresh token
is denylisted (here: by `AuthService`'s blacklist/logout writer, with
`exp` well in the future), *every* component's blacklist check reports
it — in particular the websocket gateway's.  Concretely with the empty
store, token `"tok"`, `exp = 10` s, write at `now = 0` and check at
`500` ms (long before `exp`), the auth-side check sees the marker but
the gateway-side check (`SessionService → CacheService`, key
`blacklist:token:<t>`) does not: the two writers use different key
prefixes. -/
theorem C2_counterexample :
    authIsRefreshTokenBlacklisted
        (authBlacklistRefreshToken ⟨[]⟩ "tok" (some { exp := some 10 }) 0) "tok" 500 = true
    ∧ gatewayIsTokenBlacklisted
        (authBlacklistRefreshToken ⟨[]⟩ "tok" (some { exp := some 10 }) 0) "tok" 500 = false
    ∧ 500 < 10 * 1000 := by
  refine ⟨by decide, by decide, by decide⟩

/-- C2, amended: A denylisted refresh token (live `exp`) is reported
as blacklisted until its expiry **by the checks that share the writer's
key prefix**: (1) a token denylisted through `SessionService`
(`blacklist:token:<t>`) is seen by the session-service/websocket-gateway
check at any instant before `exp`; (2) a token denylisted through
`AuthService` (`blacklist:<t>`) is seen by the auth/refresh-guard check
until the marker's whole-second TTL `⌊(exp·1000 − now)/1000⌋` elapses
(i.e. until at most one second before `exp`); but (3)/(4) a write by
either writer is invisible to the other family's check — the gateway
check never sees auth-written markers and vice versa. -/
theorem C2_amended (kv : KVStore) (token : String) (exp now checkNow : ℕ)
    (hlive : now < exp * 1000) :
    (checkNow < exp * 1000 →
      gatewayIsTokenBlacklisted
        (sessionBlacklistRefreshToken kv token (some { exp := some exp }) now)
        token checkNow = true)
    ∧ (0 < ((exp : Int) * 1000 - (now : Int)).fdiv 1000 →
      (checkNow : Int) < (now : Int) + (((exp : Int) * 1000 - (now : Int)).fdiv 1000) * 1000 →
      authIsRefreshTokenBlacklisted
        (authBlacklistRefreshToken kv token (some { exp := some exp }) now)
        token checkNow = true)
    ∧ gatewayIsTokenBlacklisted
        (authBlacklistRefreshToken kv token (some { exp := some exp }) now) token checkNow
      = gatewayIsTokenBlacklisted kv token checkNow
    ∧ authIsRefreshTokenBlacklisted
        (sessionBlacklistRefreshToken kv token (some { exp := some exp }) now) token checkNow
      = authIsRefreshTokenBlacklisted kv token checkNow := by
  have hq : now / 1000 < exp := by
    omega
  have hsession :
      sessionBlacklistRefreshToken kv token (some { exp := some exp }) now
        = kv.setEx ("blacklist:token:" ++ token) (exp - now / 1000) now := by
    have hpos : (0 : Int) < (exp : Int) - ((now / 1000 : ℕ) : Int) := by
      omega
    simp only [sessionBlacklistRefreshToken, blacklistToken, if_pos hpos]
    congr 1
    omega
  refine ⟨?_, ?_, ?_, ?_⟩
  · intro hchk
    rw [hsession]
    apply existsKey_setEx_self
    have hmul : (now / 1000) * 1000 ≤ now := Nat.div_mul_le_self now 1000
    omega
  · intro httl hchk
    have hfd : ((exp : Int) * 1000 - (now : Int)).fdiv 1000
        = ((exp : Int) * 1000 - (now : Int)) / 1000 :=
      Int.fdiv_eq_ediv _ (by decide)
    simp only [authBlacklistRefreshToken, if_pos httl]
    apply existsKey_setEx_self
    rw [hfd] at httl hchk
    omega
  · simp only [authBlacklistRefreshToken]
    split
    · exact existsKey_setEx_ne kv _ _ _ _ _ (blacklistKeys_ne token)
    · rfl
  · rw [hsession]
    exact existsKey_setEx_ne kv _ _ _ _ _
      (fun h => blacklistKeys_ne token h.symm)

/-- Witness for `C2_amended` at concrete inputs: token `"t"`, `exp = 10`,
written at `now = 500` ms and checked at `9 999` ms. -/
theorem C2_amended_witness :
    gatewayIsTokenBlacklisted
      (sessionBlacklistRefreshToken ⟨[]⟩ "t" (some { exp := some 10 }) 500) "t" 9999 = true :=
  (C2_amended ⟨[]⟩ "t" 10 500 9999 (by decide)).1 (by decide)

/-- C10: When the token handed to a denylist writer cannot be
decoded (`decoded = none` — the thrown property access is caught), has
no `exp` claim, or has an `exp` that already passed, both writers
(`AuthService.blacklistRefreshToken` and
`SessionService.blacklistRefreshToken`) complete normally, leave the
store untouched, and — provided the token carried no earlier marker —
the corresponding blacklist checks still report `false`. -/
theorem C10_blacklist_invalid_token_noop (kv : KVStore) (token : String)
    (decoded : Option JwtPayload) (now checkNow : ℕ)
    (hbad : decoded = none ∨ decoded = some { exp := none }
      ∨ ∃ e, decoded = some { exp := some e } ∧ e * 1000 ≤ now) :
    authBlacklistRefreshToken kv token decoded now = kv
    ∧ sessionBlacklistRefreshToken kv token decoded now = kv
    ∧ (authIsRefreshTokenBlacklisted kv token checkNow = false →
        authIsRefreshTokenBlacklisted (authBlacklistRefreshToken kv token decoded now)
          token checkNow = false)
    ∧ (gatewayIsTokenBlacklisted kv token checkNow = false →
        gatewayIsTokenBlacklisted (sessionBlacklistRefreshToken kv token decoded now)
          token checkNow = false) := by
  have hauth : authBlacklistRefreshToken kv token decoded now = kv := by
    rcases hbad with h | h | ⟨e, h, he⟩
    · rw [h]; rfl
    · rw [h]; rfl
    · rw [h]
      simp only [authBlacklistRefreshToken]
      rw [if_neg]
      rw [Int.fdiv_eq_ediv _ (by decide)]
      omega
  have hsession : sessionBlacklistRefreshToken kv token decoded now = kv := by
    rcases hbad with h | h | ⟨e, h, he⟩
    · rw [h]; rfl
    · rw [h]; rfl
    · rw [h]
      simp only [sessionBlacklistRefreshToken]
      rw [if_neg]
      have : e ≤ now / 1000 := by omega
      omega
  exact ⟨hauth, hsession, fun h => by rw [hauth]; exact h,
    fun h => by rw [hsession]; exact h⟩

/-- Witness for `C10_blacklist_invalid_token_noop`: a token whose `exp`
(1 s) already passed at `now = 5000` ms is not written, and its check
stays `false`. -/
theorem C10_witness :
    authBlacklistRefreshToken ⟨[]⟩ "t" (some { exp := some 1 }) 5000 = ⟨[]⟩ :=
  (C10_blacklist_invalid_token_noop ⟨[]⟩ "t" (some { exp := some 1 }) 5000 0
    (Or.inr (Or.inr ⟨1, rfl, by decide⟩))).1

/-- C8: If either analyzer call fails, `handleInboundMessage` still
produces a moderated payload for the message, carrying exactly the
default verdict `{sentiment: neutral, flagged: false, reasons: [],
confidence: {sentiment: 0.5, flagged: 0.5}}` and `processedAt = now`,
so the pipeline advances past the analysis stage. -/
theorem C8_analyzer_failure_default (message : InboundMessage)
    (moderationApi : Except Unit ModerationApiResult)
    (sentimentApi : Except Unit SentimentApiResult) (now : ℕ)
    (hfail : moderationApi = .error () ∨ sentimentApi = .error ()) :
    handleInboundMessage message moderationApi sentimentApi now
      = { id := message.id, roomId := message.roomId, senderId := message.senderId,
          body := message.body, timestamp := message.timestamp, type := message.type,
          moderation := defaultVerdict, processedAt := now } := by
  rcases hfail with h | h
  · rw [h]
    cases sentimentApi <;> rfl
  · rw [h]
    cases moderationApi <;> rfl

/-- Witness for `C8_analyzer_failure_default`: the moderation endpoint
503s while the sentiment endpoint would have answered. -/
theorem C8_witness :
    handleInboundMessage
      { id := "m1", roomId := "r", senderId := "u", body := "hello", timestamp := 3,
        type := "message.sent" }
      (.error ()) (.ok { sentiment := "positive", confidence := some ((9 : ℚ)/10) }) 7
    = { id := "m1", roomId := "r", senderId := "u", body := "hello", timestamp := 3,
        type := "message.sent", moderation := defaultVerdict, processedAt := 7 } :=
  C8_analyzer_failure_default _ _ _ 7 (Or.inl rfl)

/-- C1: The claim says the moderated handler updates the stored
document's moderation meta by id (no-op when the id is absent) before
producing the persisted payload, so that each stored meta is rewritten
from neutral exactly once.  The code's `updateMessageWithModeration`
returns a mock object and never touches the store: on a flagged verdict
for stored message `"m1"` the store is returned unchanged (meta still
neutral — rewritten zero times), and on an absent id the handler is not
a no-op either — it still produces a persisted payload and signals the
gateway. -/
theorem C1_moderation_persistence_code_bug :
    (handleModeratedMessage
      { id := "m1", roomId := "r", senderId := "u", body := "hi", timestamp := 10,
        type := "message.sent",
        moderation := { sentiment := "negative", flagged := true, reasons := ["tox"],
                        confidenceSentiment := (9 : ℚ)/10,
                        confidenceFlagged := (9 : ℚ)/10 },
        processedAt := 40 } [c7Doc] 50).store = [c7Doc]
    ∧ c7Doc.meta = neutralMeta
    ∧ (handleModeratedMessage
      { id := "m1", roomId := "r", senderId := "u", body := "hi", timestamp := 10,
        type := "message.sent",
        moderation := { sentiment := "negative", flagged := true, reasons := ["tox"],
                        confidenceSentiment := (9 : ℚ)/10,
                        confidenceFlagged := (9 : ℚ)/10 },
        processedAt := 40 } [] 50).persisted.length = 1
    ∧ (handleModeratedMessage
      { id := "m1", roomId := "r", senderId := "u", body := "hi", timestamp := 10,
        type := "message.sent",
        moderation := { sentiment := "negative", flagged := true, reasons := ["tox"],
                        confidenceSentiment := (9 : ℚ)/10,
                        confidenceFlagged := (9 : ℚ)/10 },
        processedAt := 40 } [] 50).emittedRooms = ["r"] := by
  refine ⟨by decide, by decide, by decide, by decide⟩

/-- C9: The claim says `handleDisconnect` stops the heartbeat, runs
`cleanupUser`, and emits `presence{offline}` to every room the user had
joined before the disconnect.  With user `"u"` joined to `r1` and `r2`,
the code does stop the heartbeat and clean up, but emits to **no** room:
it queries `getUserRooms` only after `cleanupUserData` has already
deleted the `user:rooms` entries. -/
theorem C9_disconnect_offline_emission_code_bug :
    getUserRooms
      { userPresence := [("u", { status := "online", socketId := some "s1", lastSeen := 5 })],
        roomUsers := [("r1", "u"), ("r2", "u")],
        userRooms := [("u", "r1"), ("u", "r2")] } "u" = ["r1", "r2"]
    ∧ (handleDisconnect
      { userPresence := [("u", { status := "online", socketId := some "s1", lastSeen := 5 })],
        roomUsers := [("r1", "u"), ("r2", "u")],
        userRooms := [("u", "r1"), ("u", "r2")] } ["u"] "u" 99).emitted = []
    ∧ (handleDisconnect
      { userPresence := [("u", { status := "online", socketId := some "s1", lastSeen := 5 })],
        roomUsers := [("r1", "u"), ("r2", "u")],
        userRooms := [("u", "r1"), ("u", "r2")] } ["u"] "u" 99).heartbeats = []
    ∧ (handleDisconnect
      { userPresence := [("u", { status := "online", socketId := some "s1", lastSeen := 5 })],
        roomUsers := [("r1", "u"), ("r2", "u")],
        userRooms := [("u", "r1"), ("u", "r2")] } ["u"] "u" 99).presence.userRooms = [] := by
  refine ⟨by decide, by decide, by decide, by decide⟩

/-- C4, counterexample: The claim says an owner can be removed only
by themselves *and only when another owner of the room exists*, so a
room always retains at least one owner.  In the code, the sole owner of
room `"r"` removes themselves successfully, leaving the room with no
owner: self-removal carries no other-owner check. -/
theorem C4_counterexample :
    removeMember ["r"] [{ roomId := "r", userId := "u", role := .owner }] "r" "u" "u"
      = .ok []
    ∧ ([] : List MembershipDoc).any (fun m => m.role = RoomRole.owner) = false := by
  refine ⟨by decide, rfl⟩

/-- C4, amended: Given an existing room and memberships for both
caller and target, `removeMember` succeeds exactly when the caller is
the target (self-removal — allowed unconditionally, even for a sole
owner), or the target is not an owner and the caller is not a plain
member and not a moderator removing another moderator.  Owners are thus
removable only by themselves, but with no surviving-owner requirement.
On success the target's membership document is the one erased;
otherwise an error is thrown. -/
theorem C4_amended (rooms : List String) (memberships : List MembershipDoc)
    (roomId targetId callerId : String) (cm tm : MembershipDoc)
    (hroom : rooms.contains roomId = true)
    (hc : memberships.find? (fun m => m.roomId = roomId && m.userId = callerId) = some cm)
    (ht : memberships.find? (fun m => m.roomId = roomId && m.userId = targetId) = some tm) :
    ((∃ ms, removeMember rooms memberships roomId targetId callerId = .ok ms)
      ↔ (callerId = targetId
          ∨ (¬ tm.role = .owner ∧ ¬ cm.role = .member
              ∧ ¬ (cm.role = .moderator ∧ tm.role = .moderator))))
    ∧ (removeMember rooms memberships roomId targetId callerId
          = .ok (memberships.erase tm)
        ∨ ∃ e, removeMember rooms memberships roomId targetId callerId = .error e) := by
  simp only [removeMember, hroom, hc, ht, Bool.not_true]
  by_cases hself : callerId = targetId
  · simp [hself]
  · cases hcr : cm.role <;> cases htr : tm.role <;> simp [hself, hcr, htr]

/-- Witness for `C4_amended`: owner `"o"` removes plain member `"v"`. -/
theorem C4_amended_witness :
    ∃ ms, removeMember ["r"]
      [{ roomId := "r", userId := "o", role := .owner },
       { roomId := "r", userId := "v", role := .member }] "r" "v" "o" = .ok ms :=
  (C4_amended ["r"]
      [{ roomId := "r", userId := "o", role := .owner },
       { roomId := "r", userId := "v", role := .member }] "r" "v" "o"
      { roomId := "r", userId := "o", role := .owner }
      { roomId := "r", userId := "v", role := .member }
      (by decide) (by decide) (by decide)).1.mpr
    (Or.inr (by decide))

/-- C3, counterexample: The claim says every stored body — for the
send *and* the update operation — is the output of
`sanitizeMessageBody` on the client text.  Editing message `"m0"` to
the client-submitted body `"javascript:x"` persists the raw string,
although `sanitizeMessageBody "javascript:x" = "x"`: `updateMessage`
never calls the sanitizer. -/
theorem C3_counterexample :
    (updateMessage c3State "m0" "javascript:x" "u" 30).map
      (fun p => p.2.messages.map (fun d => d.body)) = .ok ["javascript:x"]
    ∧ sanitizeMessageBody "javascript:x" = "x"
    ∧ ("javascript:x" : String) ≠ "x" := by
  refine ⟨by decide, by decide, by decide⟩

/-- C3, amended: `sendMessage` persists exactly
`sanitizeMessageBody` of the client-submitted body (appending a single
neutral-meta document), and its response carries that sanitized body;
`updateMessage`, by contrast, persists the client-submitted body
unchanged (validated only for length by the DTO), so the
no-unsanitized-body invariant holds for the send path only. -/
theorem C3_amended :
    (∀ (st : ChatState) (roomId body userId : String) (clientIP : Option String)
        (now : ℕ) (newId : String) (resp : MessageResponse) (st2 : ChatState),
      sendMessage st roomId body userId clientIP now newId = .ok (resp, st2) →
      st2.messages = st.messages ++
        [{ _id := newId, roomId := roomId, senderId := userId,
           body := sanitizeMessageBody body, meta := neutralMeta, editedAt := none,
           deletedAt := none, createdAt := now, updatedAt := now }]
      ∧ resp.body = sanitizeMessageBody body)
    ∧ (∀ (st : ChatState) (messageId body userId : String) (now : ℕ)
        (resp : MessageResponse) (st2 : ChatState),
      updateMessage st messageId body userId now = .ok (resp, st2) →
      resp.body = body
      ∧ ∃ d ∈ st2.messages, d._id = messageId ∧ d.body = body) := by
  constructor
  · intro st roomId body userId clientIP now newId resp st2 h
    simp only [sendMessage, sendMessageAdmitted] at h
    split at h
    · exact absurd h (by simp)
    · split at h
      · split at h
        · exact absurd h (by simp)
        · split at h
          · exact absurd h (by simp)
          · split at h
            · exact absurd h (by simp)
            · simp only [Except.ok.injEq, Prod.mk.injEq] at h
              obtain ⟨hresp, hst⟩ := h
              refine ⟨by rw [← hst], by rw [← hresp]; rfl⟩
      · split at h
        · exact absurd h (by simp)
        · split at h
          · exact absurd h (by simp)
          · simp only [Except.ok.injEq, Prod.mk.injEq] at h
            obtain ⟨hresp, hst⟩ := h
            refine ⟨by rw [← hst], by rw [← hresp]; rfl⟩
  · intro st messageId body userId now resp st2 h
    simp only [updateMessage] at h
    split at h
    · exact absurd h (by simp)
    · rename_i message hfind
      split at h
      · exact absurd h (by simp)
      · split at h
        · exact absurd h (by simp)
        · simp only [Except.ok.injEq, Prod.mk.injEq] at h
          obtain ⟨hresp, hst⟩ := h
          have hmem : message ∈ st.messages := List.mem_of_find?_eq_some hfind
          have hid : message._id = messageId := by
            have := List.find?_some hfind
            exact of_decide_eq_true this
          constructor
          · rw [← hresp]; rfl
          · refine ⟨{ message with body := body, editedAt := some now, updatedAt := now },
              ?_, hid, rfl⟩
            rw [← hst]
            have := List.mem_map_of_mem (fun d : MessageDoc =>
              if d._id = messageId then
                { d with body := body, editedAt := some now, updatedAt := now }
              else d) hmem
            simpa [hid] using this

/-- Witness for `C3_amended` (update path): editing `"m0"` to body
`"bye"` stores the raw `"bye"`. -/
theorem C3_amended_witness :
    (toMessageResponse c3UpdatedDoc).body = "bye"
    ∧ ∃ d ∈ [c3UpdatedDoc], d._id = "m0" ∧ d.body = "bye" :=
  C3_amended.2 c3State "m0" "bye" "u" 30 (toMessageResponse c3UpdatedDoc)
    { c3State with messages := [c3UpdatedDoc] } (by decide)

/-- Auxiliary: membership in the descending-insert is membership. -/
theorem mem_insertByCreatedDesc (a m : MessageDoc) (l : List MessageDoc) :
    a ∈ insertByCreatedDesc m l ↔ a = m ∨ a ∈ l := by
  induction l with
  | nil => simp [insertByCreatedDesc]
  | cons x xs ih =>
    simp only [insertByCreatedDesc]
    split
    · simp
    · simp only [List.mem_cons, ih]
      tauto

/-- Auxiliary: sorting by `createdAt` descending preserves membership. -/
theorem mem_sortByCreatedDesc (a : MessageDoc) (l : List MessageDoc) :
    a ∈ sortByCreatedDesc l ↔ a ∈ l := by
  induction l with
  | nil => simp [sortByCreatedDesc]
  | cons x xs ih =>
    show a ∈ insertByCreatedDesc x (sortByCreatedDesc xs) ↔ _
    rw [mem_insertByCreatedDesc]
    simp [ih]

/-- Auxiliary: the database branch of `getMessages` never returns a
response whose `_id` is that of a soft-deleted stored document (message
ids assumed unique). -/
theorem getMessagesFromDb_excludes_deleted (st : ChatState) (roomId : String)
    (page limit : ℕ) (cursorCreatedAt : Option ℕ) (total totalPages : ℕ)
    (hasNext hasPrev : Bool) (refreshCache : Bool) (m : MessageDoc) (d : ℕ)
    (res : MessagesPage) (st2 : ChatState)
    (heq : getMessagesFromDb st roomId page limit cursorCreatedAt total totalPages
      hasNext hasPrev refreshCache = (res, st2))
    (hnodup : (st.messages.map (fun x => x._id)).Nodup)
    (hm : m ∈ st.messages) (hdel : m.deletedAt = some d) :
    ∀ r ∈ res.messages, ¬ r._id = m._id := by
  have hres : res = (getMessagesFromDb st roomId page limit cursorCreatedAt total
      totalPages hasNext hasPrev refreshCache).1 := by rw [heq]
  subst hres
  intro r hr hcontra
  simp only [getMessagesFromDb] at hr
  obtain ⟨doc, hdoc, hrdoc⟩ := List.mem_map.mp hr
  have hdoc2 := List.mem_of_mem_drop (List.mem_of_mem_take hdoc)
  rw [mem_sortByCreatedDesc] at hdoc2
  have hdoc3 := List.mem_filter.mp hdoc2
  have hdocmem : doc ∈ st.messages := hdoc3.1
  have hdocdel : doc.deletedAt = none := by
    have hp := hdoc3.2
    simp only [Bool.and_eq_true, decide_eq_true_eq] at hp
    exact hp.1.2
  have hid : doc._id = m._id := by
    rw [← hrdoc] at hcontra
    exact hcontra
  have : doc = m :=
    List.inj_on_of_nodup_map hnodup hdocmem hm hid
  rw [this, hdel] at hdocdel
  exact Option.noConfusion hdocdel

/-- C7, counterexample: The claim says a soft-deleted message is
absent from *all* read paths, including cache-served first-page reads.
Message `"m1"` is cached for room `"r"`; its sender deletes it (the
store now has `deletedAt = 20`), but the next first-page `getMessages`
serves the stale cache entry and returns `"m1"`: neither `deleteMessage`
nor `updateMessage` invalidates the hot-message cache. -/
theorem C7_counterexample :
    (deleteMessage c7State "m1" "u" 20).map
      (fun st2 => st2.messages.map (fun m => m.deletedAt)) = .ok [some 20]
    ∧ (deleteMessage c7State "m1" "u" 20).map
      (fun st2 => (getMessages st2 "r" 1 20 none "u").map
        (fun p => p.1.messages.map (fun r => r._id))) = .ok (.ok ["m1"]) := by
  refine ⟨by decide, by decide⟩

/-- C7, amended: After a soft delete, the direct-get path reports
NotFound and database-backed history excludes the message (assuming
unique message ids); but a cache-served first page may still return it
until the room's cache entry expires or is overwritten — the exclusion
holds unconditionally only for the store-backed paths, so the
cache-miss hypothesis is required for history. -/
theorem C7_amended :
    (∀ (st : ChatState) (messageId userId : String) (m : MessageDoc),
      st.messages.find? (fun x => x._id = messageId) = some m →
      m.deletedAt.isSome →
      getMessageById st messageId userId = .error .notFound)
    ∧ (∀ (st : ChatState) (roomId : String) (page limit : ℕ) (cursor : Option String)
        (userId : String) (res : MessagesPage) (st2 : ChatState) (m : MessageDoc) (d : ℕ),
      (st.messages.map (fun x => x._id)).Nodup →
      m ∈ st.messages → m.deletedAt = some d →
      (getRecentMessages st.cache roomId = none
        ∨ getRecentMessages st.cache roomId = some []) →
      getMessages st roomId page limit cursor userId = .ok (res, st2) →
      ∀ r ∈ res.messages, ¬ r._id = m._id) := by
  constructor
  · intro st messageId userId m hfind hdel
    simp only [getMessageById, hfind]
    rw [if_pos hdel]
  · intro st roomId page limit cursor userId res st2 m d hnodup hm hdel hmiss h
    simp only [getMessages] at h
    split at h
    · exact absurd h (by simp)
    · split at h
      · exact absurd h (by simp)
      · split at h
        · rename_i cachedMessages hcached
          split at h
          · rename_i hlen
            exfalso
            split at hcached
            · rcases hmiss with hn | he
              · rw [hn] at hcached
                exact Option.noConfusion hcached
              · rw [he] at hcached
                have : cachedMessages = [] := (Option.some.injEq _ _).mp hcached |>.symm
                rw [this] at hlen
                exact absurd hlen (by decide)
            · exact Option.noConfusion hcached
          · split at h
            · split at h
              · exact absurd h (by simp)
              · simp only [Except.ok.injEq] at h
                exact getMessagesFromDb_excludes_deleted st roomId page limit _ _ _ _ _ _
                  m d res st2 h hnodup hm hdel
            · simp only [Except.ok.injEq] at h
              exact getMessagesFromDb_excludes_deleted st roomId page limit _ _ _ _ _ _
                m d res st2 h hnodup hm hdel
        · split at h
          · split at h
            · exact absurd h (by simp)
            · simp only [Except.ok.injEq] at h
              exact getMessagesFromDb_excludes_deleted st roomId page limit _ _ _ _ _ _
                m d res st2 h hnodup hm hdel
          · simp only [Except.ok.injEq] at h
            exact getMessagesFromDb_excludes_deleted st roomId page limit _ _ _ _ _ _
              m d res st2 h hnodup hm hdel

/-- Witness for `C7_amended`: direct get of the soft-deleted `"m1"`
reports NotFound. -/
theorem C7_amended_witness :
    getMessageById { c7State with messages := [c7DeletedDoc] } "m1" "u"
      = .error .notFound :=
  C7_amended.1 { c7State with messages := [c7DeletedDoc] } "m1" "u" c7DeletedDoc
    (by decide) (by decide)

/-- Unpack `goodChar`. -/
theorem goodChar_spec (c : Char) (h : goodChar c = true) :
    ¬ c.toLower = ':' ∧ ¬ c = '&' ∧ ¬ c = '<' ∧ ¬ c = '>' ∧ ¬ c = Char.ofNat 34
      ∧ ¬ c = Char.ofNat 39 ∧ ¬ c = '/' ∧ ¬ c = '=' := by
  simp only [goodChar, Bool.not_eq_true', Bool.or_eq_false_iff,
    decide_eq_false_iff_not] at h
  exact ⟨h.1.1.1.1.1.1.1, h.1.1.1.1.1.1.2, h.1.1.1.1.1.2, h.1.1.1.1.2,
    h.1.1.1.2, h.1.1.2, h.1.2, h.2⟩

/-- Embeds `escapeHtml` is the identity on strings of good characters. -/
theorem escapeHtml_of_good (l : List Char) (h : ∀ c ∈ l, goodChar c = true) :
    escapeHtml l = l := by
  induction l with
  | nil => rfl
  | cons c cs ih =>
    obtain ⟨-, h2, h3, h4, h5, h6, h7, -⟩ :=
      goodChar_spec c (h c (List.mem_cons_self c cs))
    have hch : escapeHtmlChar c = [c] := by
      simp only [escapeHtmlChar]
      rw [if_neg h2, if_neg h3, if_neg h4, if_neg h5, if_neg h6, if_neg h7]
    show escapeHtmlChar c ++ escapeHtml cs = c :: cs
    rw [hch, ih (fun d hd => h d (List.mem_cons_of_mem c hd))]
    rfl

/-- No entity can start at a non-`&` character. -/
theorem entityAtHead_none (c : Char) (cs : List Char) (h : ¬ c = '&') :
    entityAtHead (c :: cs) = none := by
  simp only [entityAtHead]
  rw [if_neg h]

/-- Entity decoding is the identity on `&`-free strings. -/
theorem decodeEntitiesAux_of_no_amp (fuel : ℕ) (l : List Char)
    (hfuel : l.length ≤ fuel) (h : ∀ c ∈ l, ¬ c = '&') :
    decodeEntitiesAux fuel l = l := by
  induction fuel generalizing l with
  | zero =>
    have : l = [] := List.length_eq_zero.mp (Nat.le_zero.mp hfuel)
    rw [this]
    rfl
  | succ fuel ih =>
    cases l with
    | nil => rfl
    | cons c cs =>
      have hent := entityAtHead_none c cs (h c (List.mem_cons_self c cs))
      simp only [decodeEntitiesAux, hent]
      rw [ih cs (by simpa using Nat.le_of_succ_le_succ (by simpa using hfuel))
        (fun d hd => h d (List.mem_cons_of_mem c hd))]

/-- Text-node serialization is the identity on `&<>`-free strings. -/
theorem encodeText_of_good (l : List Char) (h : ∀ c ∈ l, goodChar c = true) :
    encodeText l = l := by
  induction l with
  | nil => rfl
  | cons c cs ih =>
    obtain ⟨-, h2, h3, h4, -, -, -, -⟩ :=
      goodChar_spec c (h c (List.mem_cons_self c cs))
    show encodeTextChar c ++ encodeText cs = c :: cs
    have hch : encodeTextChar c = [c] := by
      simp only [encodeTextChar]
      rw [if_neg h2, if_neg h3, if_neg h4]
    rw [hch, ih (fun d hd => h d (List.mem_cons_of_mem c hd))]
    rfl

/-- The DOMPurify model is the identity on strings of good characters. -/
theorem domPurifySanitize_of_good (l : List Char) (h : ∀ c ∈ l, goodChar c = true) :
    domPurifySanitize l = l := by
  show encodeText (decodeEntities l) = l
  rw [show decodeEntities l = l from
    decodeEntitiesAux_of_no_amp l.length l (Nat.le_refl _)
      (fun c hc => (goodChar_spec c (h c hc)).2.1)]
  exact encodeText_of_good l h

/-- Tag stripping is the identity on `<`-free strings. -/
theorem stripTagsAux_of_good (fuel : ℕ) (l : List Char)
    (hfuel : l.length ≤ fuel) (h : ∀ c ∈ l, goodChar c = true) :
    stripTagsAux fuel l = l := by
  induction fuel generalizing l with
  | zero =>
    have : l = [] := List.length_eq_zero.mp (Nat.le_zero.mp hfuel)
    rw [this]
    rfl
  | succ fuel ih =>
    cases l with
    | nil => rfl
    | cons c cs =>
      have hc := (goodChar_spec c (h c (List.mem_cons_self c cs))).2.2.1
      simp only [stripTagsAux]
      rw [if_neg hc, ih cs (by simpa using Nat.le_of_succ_le_succ (by simpa using hfuel))
        (fun d hd => h d (List.mem_cons_of_mem c hd))]

/-- Embeds `stripTags` is the identity on good strings. -/
theorem stripTags_of_good (l : List Char) (h : ∀ c ∈ l, goodChar c = true) :
    stripTags l = l :=
  stripTagsAux_of_good l.length l (Nat.le_refl _) h

/-- A case-insensitive prefix match realises every pattern character as
the lowercase of some input character. -/
theorem isPrefixCI_mem (pat : List Char) :
    ∀ (t : List Char), isPrefixCI pat t = true → ∀ p ∈ pat, ∃ c ∈ t, p = c.toLower := by
  induction pat with
  | nil =>
    intro t _ p hp
    exact absurd hp (List.not_mem_nil p)
  | cons q qs ih =>
    intro t h p hp
    cases t with
    | nil => exact absurd h (by simp [isPrefixCI])
    | cons c cs =>
      simp only [isPrefixCI, Bool.and_eq_true, decide_eq_true_eq] at h
      rcases List.mem_cons.mp hp with rfl | hp2
      · exact ⟨c, List.mem_cons_self c cs, h.1⟩
      · obtain ⟨c2, hc2, he⟩ := ih cs h.2 p hp2
        exact ⟨c2, List.mem_cons_of_mem c hc2, he⟩

/-- Scheme removal is the identity when the input has no character whose
lowercase is `:` (every removed pattern contains `:`). -/
theorem replaceAllCIAux_of_good (pat : List Char) (hpat : ':' ∈ pat) (fuel : ℕ) :
    ∀ (l : List Char), l.length ≤ fuel → (∀ c ∈ l, goodChar c = true) →
      replaceAllCIAux pat fuel l = l := by
  induction fuel with
  | zero =>
    intro l hfuel _
    have : l = [] := List.length_eq_zero.mp (Nat.le_zero.mp hfuel)
    rw [this]
    rfl
  | succ fuel ih =>
    intro l hfuel h
    cases l with
    | nil => rfl
    | cons c cs =>
      have hguard : (isPrefixCI pat (c :: cs) && !pat.isEmpty) = false := by
        cases hpf : isPrefixCI pat (c :: cs) with
        | false => rfl
        | true =>
          exfalso
          obtain ⟨ch, hch, hpe⟩ := isPrefixCI_mem pat (c :: cs) hpf ':' hpat
          exact (goodChar_spec ch (h ch hch)).1 hpe.symm
      simp only [replaceAllCIAux, hguard, Bool.false_eq_true, if_false]
      rw [ih cs (by simpa using Nat.le_of_succ_le_succ (by simpa using hfuel))
        (fun d hd => h d (List.mem_cons_of_mem c hd))]

/-- Embeds `replaceAllCI` is the identity on good strings for `:`-patterns. -/
theorem replaceAllCI_of_good (pat l : List Char) (h : ∀ c ∈ l, goodChar c = true)
    (hpat : ':' ∈ pat) : replaceAllCI pat l = l :=
  replaceAllCIAux_of_good pat hpat l.length l (Nat.le_refl _) h

/-- An `on\w+\s*=` match always contains a literal `=`. -/
theorem matchEventAttrLen_mem (l : List Char) (n : ℕ)
    (h : matchEventAttrLen l = some n) : '=' ∈ l := by
  simp only [matchEventAttrLen] at h
  split at h
  · rename_i a b rest
    split at h
    · split at h
      · split at h
        · rename_i c tail heq
          split at h
          · rename_i hceq
            have hmem1 : c ∈ (rest.dropWhile isWordChar).dropWhile Char.isWhitespace := by
              rw [heq]
              exact List.mem_cons_self c tail
            have hsub : ((rest.dropWhile isWordChar).dropWhile Char.isWhitespace).Sublist rest :=
              (List.dropWhile_sublist _).trans (List.dropWhile_sublist _)
            have : c ∈ rest := hsub.mem hmem1
            rw [hceq] at this
            exact List.mem_cons_of_mem a (List.mem_cons_of_mem b this)
          · exact Option.noConfusion h
        · exact Option.noConfusion h
      · exact Option.noConfusion h
    · exact Option.noConfusion h
  · exact Option.noConfusion h

/-- Embeds `on\w+\s*=` removal is the identity on `=`-free strings. -/
theorem removeEventAttrsAux_of_good (fuel : ℕ) :
    ∀ (l : List Char), l.length ≤ fuel → (∀ c ∈ l, goodChar c = true) →
      removeEventAttrsAux fuel l = l := by
  induction fuel with
  | zero =>
    intro l hfuel _
    have : l = [] := List.length_eq_zero.mp (Nat.le_zero.mp hfuel)
    rw [this]
    rfl
  | succ fuel ih =>
    intro l hfuel h
    cases l with
    | nil => rfl
    | cons c cs =>
      have hnone : matchEventAttrLen (c :: cs) = none := by
        cases hm : matchEventAttrLen (c :: cs) with
        | none => rfl
        | some n =>
          exfalso
          have := matchEventAttrLen_mem (c :: cs) n hm
          exact (goodChar_spec '=' (h '=' this)).2.2.2.2.2.2.2 rfl
      simp only [removeEventAttrsAux, hnone]
      rw [ih cs (by simpa using Nat.le_of_succ_le_succ (by simpa using hfuel))
        (fun d hd => h d (List.mem_cons_of_mem c hd))]

/-- Embeds `removeEventAttrs` is the identity on good strings. -/
theorem removeEventAttrs_of_good (l : List Char) (h : ∀ c ∈ l, goodChar c = true) :
    removeEventAttrs l = l :=
  removeEventAttrsAux_of_good l.length l (Nat.le_refl _) h

/-- Embeds `dropWhile` is idempotent. -/
theorem dropWhile_dropWhile (p : Char → Bool) (l : List Char) :
    (l.dropWhile p).dropWhile p = l.dropWhile p := by
  cases h : l.dropWhile p with
  | nil => rfl
  | cons a t =>
    have h2 := List.head?_dropWhile_not p l
    rw [h] at h2
    have ha : p a = false := h2
    exact List.dropWhile_cons_of_neg (by simp [ha])

/-- Trimming a string whose front is already trimmed is stable. -/
theorem trim_aux (t : List Char) (ht : t.dropWhile Char.isWhitespace = t) :
    trimChars ((t.reverse.dropWhile Char.isWhitespace).reverse)
      = (t.reverse.dropWhile Char.isWhitespace).reverse := by
  have hsuf : t.reverse.dropWhile Char.isWhitespace <:+ t.reverse :=
    List.dropWhile_suffix _
  obtain ⟨w, hw⟩ := hsuf
  have htr : t = (t.reverse.dropWhile Char.isWhitespace).reverse ++ w.reverse := by
    have h2 := congrArg List.reverse hw
    rw [List.reverse_append] at h2
    rw [List.reverse_reverse] at h2
    exact h2.symm
  have hA : ((t.reverse.dropWhile Char.isWhitespace).reverse).dropWhile Char.isWhitespace
      = (t.reverse.dropWhile Char.isWhitespace).reverse := by
    cases hr : (t.reverse.dropWhile Char.isWhitespace).reverse with
    | nil => rfl
    | cons a r2 =>
      by_cases hpa : Char.isWhitespace a
      · exfalso
        rw [htr, hr] at ht
        rw [List.cons_append, List.dropWhile_cons_of_pos hpa] at ht
        have hlen := congrArg List.length ht
        have hle : ((r2 ++ w.reverse).dropWhile Char.isWhitespace).length
            ≤ (r2 ++ w.reverse).length := (List.dropWhile_sublist _).length_le
        simp only [List.length_cons] at hlen
        omega
      · exact List.dropWhile_cons_of_neg hpa
  show ((((t.reverse.dropWhile Char.isWhitespace).reverse).dropWhile
      Char.isWhitespace).reverse.dropWhile Char.isWhitespace).reverse = _
  rw [hA, List.reverse_reverse, dropWhile_dropWhile]

/-- Embeds `trimChars` is idempotent. -/
theorem trimChars_idem (s : List Char) : trimChars (trimChars s) = trimChars s :=
  trim_aux (s.dropWhile Char.isWhitespace) (dropWhile_dropWhile _ s)

/-- Trimming only removes characters. -/
theorem mem_trimChars (c : Char) (s : List Char) (h : c ∈ trimChars s) : c ∈ s := by
  simp only [trimChars, List.mem_reverse] at h
  have h2 : c ∈ (s.dropWhile Char.isWhitespace).reverse :=
    (List.dropWhile_sublist _).mem h
  rw [List.mem_reverse] at h2
  exact (List.dropWhile_sublist _).mem h2

/-- On good strings `sanitizeText` reduces to `trim`. -/
theorem sanitizeText_of_good (s : String) (h : ∀ c ∈ s.data, goodChar c = true) :
    sanitizeText s = String.mk (trimChars s.data) := by
  by_cases hs : s = ""
  · rw [hs]
    rfl
  · simp only [sanitizeText, if_neg hs]
    rw [escapeHtml_of_good s.data h, domPurifySanitize_of_good s.data h,
      stripTags_of_good s.data h, replaceAllCI_of_good _ s.data h (by decide),
      replaceAllCI_of_good _ s.data h (by decide),
      replaceAllCI_of_good _ s.data h (by decide)]

/-- On good strings `sanitizeMessageBody` reduces to `trim`. -/
theorem sanitizeMessageBody_of_good (s : String)
    (h : ∀ c ∈ s.data, goodChar c = true) :
    sanitizeMessageBody s = String.mk (trimChars s.data) := by
  by_cases hs : s = ""
  · rw [hs]
    rfl
  · simp only [sanitizeMessageBody, if_neg hs]
    rw [domPurifySanitize_of_good s.data h, replaceAllCI_of_good _ s.data h (by decide),
      replaceAllCI_of_good _ s.data h (by decide),
      replaceAllCI_of_good _ s.data h (by decide),
      removeEventAttrs_of_good s.data h]

/-- C6, counterexample: The claim asserts
`sanitize (sanitize x) = sanitize x` for each sanitizer.  On
`"javajavascript:script:x"` the single left-to-right pass of
`replace(/javascript:/gi, '')` removes the inner occurrence and thereby
*creates* a new `javascript:` spanning the seam, which only the second
application removes — so all three sanitizers change their own output. -/
theorem C6_counterexample :
    sanitizeText "javajavascript:script:x" = "javascript:x"
    ∧ sanitizeText (sanitizeText "javajavascript:script:x")
        ≠ sanitizeText "javajavascript:script:x"
    ∧ sanitizeMessageBody (sanitizeMessageBody "javajavascript:script:x")
        ≠ sanitizeMessageBody "javajavascript:script:x"
    ∧ sanitizeRoomName (sanitizeRoomName "javajavascript:script:x")
        ≠ sanitizeRoomName "javajavascript:script:x" := by
  refine ⟨by decide, by decide, by decide, by decide⟩

/-- C6, amended: The sanitizers are *not* idempotent in general
(single-pass scheme removal can create a new occurrence, and `&` is
re-escaped on each pass); they are fixed after one application on
inputs whose characters none of the passes react to — no
HTML-escapable character (`& < > " ' /`), no `:` (present in every
removed scheme), no `=` (present in every `on*=` pattern); on such
inputs each sanitizer acts as `trim`, which is idempotent, and
`sanitizeRoomName` is additionally stable when the trimmed input fits
the 100-character clamp. -/
theorem C6_amended (s : String) (h : s.data.all goodChar = true) :
    sanitizeText (sanitizeText s) = sanitizeText s
    ∧ sanitizeMessageBody (sanitizeMessageBody s) = sanitizeMessageBody s
    ∧ ((trimChars s.data).length ≤ 100 →
        sanitizeRoomName (sanitizeRoomName s) = sanitizeRoomName s) := by
  have hgood : ∀ c ∈ s.data, goodChar c = true := List.all_eq_true.mp h
  have htrimgood : ∀ c ∈ (String.mk (trimChars s.data)).data, goodChar c = true :=
    fun c hc => hgood c (mem_trimChars c s.data hc)
  have h1 := sanitizeText_of_good s hgood
  have h2 := sanitizeText_of_good (String.mk (trimChars s.data)) htrimgood
  have hb1 := sanitizeMessageBody_of_good s hgood
  have hb2 := sanitizeMessageBody_of_good (String.mk (trimChars s.data)) htrimgood
  refine ⟨?_, ?_, ?_⟩
  · rw [h1, h2]
    show String.mk (trimChars (trimChars s.data)) = String.mk (trimChars s.data)
    rw [trimChars_idem]
  · rw [hb1, hb2]
    show String.mk (trimChars (trimChars s.data)) = String.mk (trimChars s.data)
    rw [trimChars_idem]
  · intro hlen
    have htake : (trimChars s.data).take 100 = trimChars s.data :=
      List.take_of_length_le hlen
    by_cases hs : s = ""
    · rw [hs]
      rfl
    · have hr1 : sanitizeRoomName s = String.mk (trimChars s.data) := by
        simp only [sanitizeRoomName, if_neg hs, h1]
        show String.mk ((trimChars s.data).take 100) = _
        rw [htake]
      rw [hr1]
      by_cases hmt : String.mk (trimChars s.data) = ""
      · rw [hmt]
        rfl
      · simp only [sanitizeRoomName, if_neg hmt, h2]
        show String.mk ((trimChars (trimChars s.data)).take 100) = _
        rw [trimChars_idem, htake]

/-- Witness for `C6_amended` on `"  hello world "`: one application
trims it; the second leaves it unchanged. -/
theorem C6_amended_witness :
    sanitizeText (sanitizeText "  hello world ") = sanitizeText "  hello world "
    ∧ sanitizeMessageBody (sanitizeMessageBody "  hello world ")
        = sanitizeMessageBody "  hello world "
    ∧ sanitizeRoomName (sanitizeRoomName "  hello world ")
        = sanitizeRoomName "  hello world " :=
  ⟨(C6_amended "  hello world " (by decide)).1,
   (C6_amended "  hello world " (by decide)).2.1,
   (C6_amended "  hello world " (by decide)).2.2 (by decide)⟩

/-- Admitted call times are call times. -/
theorem rlAdmitted_subset (limit wsec : ℕ) :
    ∀ (cs : List ℕ) (st : Finset ℕ) (u : ℕ), u ∈ rlAdmitted limit wsec st cs → u ∈ cs := by
  intro cs
  induction cs with
  | nil => intro st u hu; exact absurd hu (List.not_mem_nil u)
  | cons c cs ih =>
    intro st u hu
    simp only [rlAdmitted] at hu
    split at hu
    · rcases List.mem_cons.mp hu with rfl | hu2
      · exact List.mem_cons_self u cs
      · exact List.mem_cons_of_mem c (ih _ u hu2)
    · exact List.mem_cons_of_mem c (ih _ u hu)

/-- Admitted call times form a sublist of the call times. -/
theorem rlAdmitted_sublist (limit wsec : ℕ) :
    ∀ (cs : List ℕ) (st : Finset ℕ), (rlAdmitted limit wsec st cs).Sublist cs := by
  intro cs
  induction cs with
  | nil => intro st; simp [rlAdmitted]
  | cons c cs ih =>
    intro st
    simp only [rlAdmitted]
    split
    · exact List.Sublist.cons₂ c (ih _)
    · exact List.Sublist.cons c (ih _)

/-- Core invariant of the sliding-window limiter under strictly
increasing call times: at each admitted time `u`, the prior history
`hist` plus the admissions up to `u` hold at most `limit` elements in
the window `(u − window, u]`.  `st` is the surviving bucket, `b` the
last eviction bound. -/
theorem rl_window_aux (limit wsec : ℕ) (hw : 0 < wsec) :
    ∀ (cs : List ℕ) (st hist : Finset ℕ) (b : Int),
      st = hist.filter (fun t : ℕ => b < (t : Int)) →
      List.Pairwise (· < ·) cs →
      (∀ t ∈ hist, ∀ c ∈ cs, t < c) →
      (∀ c ∈ cs, b ≤ (c : Int) - (wsec : Int) * 1000) →
      ∀ u ∈ rlAdmitted limit wsec st cs,
        ((hist ∪ ((rlAdmitted limit wsec st cs).filter (fun t => t ≤ u)).toFinset).filter
          (fun t : ℕ => (u : Int) - (wsec : Int) * 1000 < (t : Int) ∧ t ≤ u)).card
            ≤ limit := by
  intro cs
  induction cs with
  | nil =>
    intro st hist b _ _ _ _ u hu
    exact absurd hu (List.not_mem_nil u)
  | cons c cs ih =>
    intro st hist b hst hpw hlt hb u hu
    obtain ⟨hclt, hpw2⟩ := List.pairwise_cons.mp hpw
    have hkept : st.filter (fun t : ℕ => (c : Int) - (wsec : Int) * 1000 < (t : Int))
        = hist.filter (fun t : ℕ => (c : Int) - (wsec : Int) * 1000 < (t : Int)) := by
      rw [hst, Finset.filter_filter]
      apply Finset.filter_congr
      intro t _
      constructor
      · intro hpair
        exact hpair.2
      · intro h2
        have hbc := hb c (List.mem_cons_self c cs)
        exact ⟨lt_of_le_of_lt hbc h2, h2⟩
    by_cases hcard :
        limit ≤ (st.filter (fun t : ℕ => (c : Int) - (wsec : Int) * 1000 < (t : Int))).card
    · -- denied: the state shrinks to the surviving entries, nothing admitted
      have hstep : rlAdmitted limit wsec st (c :: cs)
          = rlAdmitted limit wsec
            (st.filter (fun t : ℕ => (c : Int) - (wsec : Int) * 1000 < (t : Int))) cs := by
        simp only [rlAdmitted, checkRateLimit]
        rw [if_pos hcard]
        simp
      rw [hstep] at hu ⊢
      exact ih _ hist ((c : Int) - (wsec : Int) * 1000) hkept hpw2
        (fun t ht c2 hc2 => hlt t ht c2 (List.mem_cons_of_mem c hc2))
        (fun c2 hc2 => by
          have := hclt c2 hc2
          omega)
        u hu
    · -- admitted: `c` joins the bucket and the admitted list
      have hstep : rlAdmitted limit wsec st (c :: cs)
          = c :: rlAdmitted limit wsec
            (insert c (st.filter (fun t : ℕ => (c : Int) - (wsec : Int) * 1000 < (t : Int)))) cs := by
        simp only [rlAdmitted, checkRateLimit]
        rw [if_neg hcard]
        simp
      have hcw : ((c : Int) - (wsec : Int) * 1000) < (c : Int) := by omega
      have hAsub : ∀ a ∈ rlAdmitted limit wsec
          (insert c (st.filter (fun t : ℕ => (c : Int) - (wsec : Int) * 1000 < (t : Int)))) cs,
          c < a :=
        fun a ha => hclt a (rlAdmitted_subset limit wsec cs _ a ha)
      rw [hstep] at hu ⊢
      rcases List.mem_cons.mp hu with rfl | hu2
      · -- the admitted instant itself
        have hfilter : (u :: rlAdmitted limit wsec
            (insert u (st.filter (fun t : ℕ => (u : Int) - (wsec : Int) * 1000 < (t : Int)))) cs).filter
              (fun t => t ≤ u) = [u] := by
          rw [List.filter_cons_of_pos (by simp)]
          rw [List.filter_eq_nil_iff.mpr]
          intro a ha
          have := hAsub a ha
          simp
          omega
        rw [hfilter]
        have hun : hist ∪ ([u].toFinset : Finset ℕ) = insert u hist := by
          show hist ∪ insert u ∅ = insert u hist
          rw [Finset.union_insert, Finset.union_empty]
        rw [hun, Finset.filter_insert, if_pos (by constructor <;> omega)]
        have hwin : hist.filter
            (fun t : ℕ => (u : Int) - (wsec : Int) * 1000 < (t : Int) ∧ t ≤ u)
            = hist.filter (fun t : ℕ => (u : Int) - (wsec : Int) * 1000 < (t : Int)) := by
          apply Finset.filter_congr
          intro t ht
          have htu : t < u := hlt t ht u (List.mem_cons_self u cs)
          constructor
          · intro hpair
            exact hpair.1
          · intro h2
            exact ⟨h2, Nat.le_of_lt htu⟩
        calc (insert u (hist.filter
              (fun t : ℕ => (u : Int) - (wsec : Int) * 1000 < (t : Int) ∧ t ≤ u))).card
            ≤ (hist.filter
              (fun t : ℕ => (u : Int) - (wsec : Int) * 1000 < (t : Int) ∧ t ≤ u)).card + 1 :=
              Finset.card_insert_le _ _
          _ ≤ limit := by
              rw [hwin, ← hkept]
              omega
      · -- a later admitted instant: apply the induction hypothesis
        have hcu : c < u := hAsub u hu2
        have hres := ih
          (insert c (st.filter (fun t : ℕ => (c : Int) - (wsec : Int) * 1000 < (t : Int))))
          (insert c hist) ((c : Int) - (wsec : Int) * 1000)
          (by
            rw [Finset.filter_insert, if_pos hcw, hkept])
          hpw2
          (by
            intro t ht c2 hc2
            rcases Finset.mem_insert.mp ht with rfl | ht2
            · exact hclt c2 hc2
            · exact hlt t ht2 c2 (List.mem_cons_of_mem c hc2))
          (by
            intro c2 hc2
            have := hclt c2 hc2
            omega)
          u hu2
        have hsets : hist ∪ ((c :: rlAdmitted limit wsec
            (insert c (st.filter (fun t : ℕ => (c : Int) - (wsec : Int) * 1000 < (t : Int)))) cs).filter
              (fun t => t ≤ u)).toFinset
            = insert c hist ∪ ((rlAdmitted limit wsec
            (insert c (st.filter (fun t : ℕ => (c : Int) - (wsec : Int) * 1000 < (t : Int)))) cs).filter
              (fun t => t ≤ u)).toFinset := by
          rw [List.filter_cons_of_pos (by simp; omega), List.toFinset_cons,
            Finset.union_insert, Finset.insert_union]
        rw [hsets]
        exact hres

/-- C5, counterexample: The claim bounds the admitted events inside
any sliding window by `limit`.  Three calls in the same millisecond
(`now = 100`, `limit = 2`, 60 s window) are all admitted: the sorted-set
member is the string `String(now)`, so the second admission overwrites
the first instead of adding a member, and the third call still counts
only one entry.  The window `(99, 99 + 60000]` then holds 3 > 2
admitted events. -/
theorem C5_counterexample :
    rlAdmitted 2 60 ∅ [100, 100, 100] = [100, 100, 100]
    ∧ ((rlAdmitted 2 60 ∅ [100, 100, 100]).filter
        (fun t => 99 < t && t ≤ 99 + 60 * 1000)).length = 3
    ∧ 2 < 3 := by
  refine ⟨by decide, by decide, by decide⟩

/-- C5, amended: (1) A `checkRateLimit` call is admitted iff the
count of recorded timestamps newer than `now − window` is strictly
below `limit` — exactly as claimed.  (2) The windowed bound on admitted
events holds under the additional assumption that the call times are
strictly increasing (so no two admissions collide on the same
`String(now)` sorted-set member): starting from an empty bucket, any
window `(s, s + window]` contains at most `limit` admitted events. -/
theorem C5_amended (limit windowSeconds : ℕ) :
    (∀ (st : Finset ℕ) (now : ℕ),
      (checkRateLimit st limit windowSeconds now).result.allowed = true
        ↔ (st.filter (fun t : ℕ =>
            (now : Int) - (windowSeconds : Int) * 1000 < (t : Int))).card < limit)
    ∧ (∀ (calls : List ℕ) (s : ℕ), List.Pairwise (· < ·) calls →
      ((rlAdmitted limit windowSeconds ∅ calls).filter
        (fun t => s < t && t ≤ s + windowSeconds * 1000)).length ≤ limit) := by
  constructor
  · intro st now
    simp only [checkRateLimit]
    by_cases hcard : limit ≤ (st.filter (fun t : ℕ =>
        (now : Int) - (windowSeconds : Int) * 1000 < (t : Int))).card
    · rw [if_pos hcard]
      simp only [Bool.false_eq_true, false_iff]
      omega
    · rw [if_neg hcard]
      simp only [true_iff]
      omega
  · intro calls s hpw
    by_cases hw : 0 < windowSeconds
    · have hnodupA : (rlAdmitted limit windowSeconds ∅ calls).Nodup :=
        List.Nodup.sublist (rlAdmitted_sublist limit windowSeconds calls ∅)
          (hpw.imp (fun h12 => Nat.ne_of_lt h12))
      cases hL : (rlAdmitted limit windowSeconds ∅ calls).filter
          (fun t => s < t && t ≤ s + windowSeconds * 1000) with
      | nil => simp [hL]
      | cons a L2 =>
        have hndL : ((rlAdmitted limit windowSeconds ∅ calls).filter
            (fun t => s < t && t ≤ s + windowSeconds * 1000)).Nodup :=
          List.Nodup.filter _ hnodupA
        have hne : ((rlAdmitted limit windowSeconds ∅ calls).filter
            (fun t => s < t && t ≤ s + windowSeconds * 1000)).toFinset.Nonempty := by
          rw [hL]
          exact ⟨a, by simp⟩
        obtain ⟨u, humem0, humax⟩ : ∃ u, u ∈ ((rlAdmitted limit windowSeconds ∅ calls).filter
            (fun t => s < t && t ≤ s + windowSeconds * 1000)).toFinset
            ∧ ∀ t ∈ ((rlAdmitted limit windowSeconds ∅ calls).filter
              (fun t => s < t && t ≤ s + windowSeconds * 1000)).toFinset, t ≤ u :=
          ⟨_, Finset.max'_mem _ hne, fun t ht => Finset.le_max' _ t ht⟩
        rw [List.mem_toFinset, List.mem_filter] at humem0
        obtain ⟨humem, hubool⟩ := humem0
        simp only [Bool.and_eq_true, decide_eq_true_eq] at hubool
        have huwin : s < u ∧ u ≤ s + windowSeconds * 1000 := hubool
        have haux := rl_window_aux limit windowSeconds hw calls ∅ ∅
          (-(windowSeconds : Int) * 1000)
          (by rw [Finset.filter_empty])
          hpw
          (by intro t ht; exact absurd ht (Finset.not_mem_empty t))
          (by intro c _; omega)
          u humem
        rw [Finset.empty_union] at haux
        have hsubset : ((rlAdmitted limit windowSeconds ∅ calls).filter
            (fun t => s < t && t ≤ s + windowSeconds * 1000)).toFinset
            ⊆ (((rlAdmitted limit windowSeconds ∅ calls).filter
                (fun t => t ≤ u)).toFinset.filter
              (fun t : ℕ => (u : Int) - (windowSeconds : Int) * 1000 < (t : Int) ∧ t ≤ u)) := by
          intro t ht
          have htle : t ≤ u := humax t ht
          rw [List.mem_toFinset, List.mem_filter] at ht
          obtain ⟨htA, htbool⟩ := ht
          simp only [Bool.and_eq_true, decide_eq_true_eq] at htbool
          have htwin : s < t ∧ t ≤ s + windowSeconds * 1000 := htbool
          rw [Finset.mem_filter, List.mem_toFinset, List.mem_filter]
          refine ⟨⟨htA, by simp; omega⟩, ?_, htle⟩
          omega
        rw [← hL]
        calc ((rlAdmitted limit windowSeconds ∅ calls).filter
              (fun t => s < t && t ≤ s + windowSeconds * 1000)).length
            = ((rlAdmitted limit windowSeconds ∅ calls).filter
              (fun t => s < t && t ≤ s + windowSeconds * 1000)).toFinset.card :=
              (List.toFinset_card_of_nodup hndL).symm
          _ ≤ _ := Finset.card_le_card hsubset
          _ ≤ limit := haux
    · have hz : windowSeconds = 0 := by omega
      subst hz
      have hnil : (rlAdmitted limit 0 ∅ calls).filter
          (fun t => s < t && t ≤ s + 0 * 1000) = [] :=
        List.filter_eq_nil_iff.mpr (by
          intro t _
          simp only [Bool.and_eq_true, decide_eq_true_eq, not_and]
          omega)
      rw [hnil]
      simp

/-- Witness for `C5_amended`: a concrete admission decision and a
concrete strictly-increasing trace. -/
theorem C5_amended_witness :
    ((checkRateLimit {100} 2 60 101).result.allowed = true
      ↔ (({100} : Finset ℕ).filter (fun t : ℕ =>
          ((101 : ℕ) : Int) - ((60 : ℕ) : Int) * 1000 < (t : Int))).card < 2)
    ∧ ((rlAdmitted 2 60 ∅ [100, 200, 300]).filter
        (fun t => 99 < t && t ≤ 99 + 60 * 1000)).length ≤ 2 :=
  ⟨(C5_amended 2 60).1 {100} 101,
   (C5_amended 2 60).2 [100, 200, 300] 99 (by decide)⟩
